import Mathlib

/-
  Verification of the exception event correlation and deduplication engine of
  abrt-java-connector (src/abrt-checker.c), as a shallow embedding in Lean 4.

  Strings are modelled as `List Char`; machine pointers that are only tested
  against NULL become `Option`; the opaque fault identity (the `jobject
  exception_object`, compared via the collaborator-supplied equality) is
  modelled as `Nat`.  Collaborator lookups (JVMTI name resolution, thread ids)
  are taken as pre-resolved event fields, following the spec's external
  interface: the engine consumes plain data.
-/

namespace AbrtJavaConnector

/-- MAX_REASON_MESSAGE_STRING_LENGTH from abrt-checker.c (255). -/
def MAX_REASON_MESSAGE_STRING_LENGTH : Nat := 255

/-- REPORTED_EXCEPTION_STACK_CAPACITY from abrt-checker.c (default 5). -/
def REPORTED_EXCEPTION_STACK_CAPACITY : Nat := 5

/-- Model of `strrchr(s, '.')` followed by `ptr + 1` in
format_exception_reason_message: the suffix of `s` strictly after the last
occurrence of '.', or `none` when `s` contains no '.'. -/
def afterLastDot : List Char → Option (List Char)
  | [] => none
  | c :: rest =>
    match afterLastDot rest with
    | some r => some r
    | none => if c = '.' then some rest else none

/-- The string rendered by the snprintf in format_exception_reason_message:
`"<pfx> exception <en> in method <cn>[.]<m>()"`, where the '.' separator is
present exactly when the class name is nonempty. -/
def renderedReason (pfx en cn m : List Char) : List Char :=
  pfx ++ (" exception ").toList ++ en ++ (" in method ").toList ++ cn ++
    (if cn.isEmpty then [] else ['.']) ++ m ++ ("()").toList

/-- Failure modes of the formatter loop: `snprintfFailed` embeds the
`message_len <= 0` branch of the source; `outOfFuel` is not a branch of the
source but the fuel guard of the embedding, shown unreachable below. -/
inductive FmtError where
  | outOfFuel : FmtError
  | snprintfFailed : FmtError
deriving DecidableEq

/-- The shrink-and-re-render loop of format_exception_reason_message
(abrt-checker.c lines 830-868), with an explicit fuel parameter standing for
the number of remaining iterations.  The returned string is the snprintf
buffer, which holds the first `MAX_REASON_MESSAGE_STRING_LENGTH - 1`
characters of the last rendering. -/
def formatReasonLoop : Nat → List Char → List Char → List Char → List Char →
    Except FmtError (List Char)
  | 0, _, _, _, _ => Except.error FmtError.outOfFuel
  | fuel + 1, pfx, en, cn, m =>
    if (renderedReason pfx en cn m).length = 0 then
      Except.error FmtError.snprintfFailed
    else if MAX_REASON_MESSAGE_STRING_LENGTH ≤ (renderedReason pfx en cn m).length then
      match afterLastDot cn with
      | some cn' => formatReasonLoop fuel pfx en cn' m
      | none =>
        match afterLastDot en with
        | some en' => formatReasonLoop fuel pfx en' cn m
        | none =>
          if cn.isEmpty then
            Except.ok ((renderedReason pfx en cn m).take (MAX_REASON_MESSAGE_STRING_LENGTH - 1))
          else
            formatReasonLoop fuel pfx en [] m
    else
      Except.ok ((renderedReason pfx en cn m).take (MAX_REASON_MESSAGE_STRING_LENGTH - 1))

/-- The prefix chosen by the `caught` flag in format_exception_reason_message. -/
def reasonPfx (caught : Bool) : List Char :=
  if caught then ("Caught").toList else ("Uncaught").toList

/-- format_exception_reason_message (abrt-checker.c lines 813-869).  The fuel
`class_fqdn.length + exception_fqdn.length + 1` bounds the number of loop
iterations, since every iteration that does not return strictly shrinks one of
the two names. -/
def format_exception_reason_message (caught : Bool)
    (exception_fqdn class_fqdn method : List Char) : Except FmtError (List Char) :=
  formatReasonLoop (class_fqdn.length + exception_fqdn.length + 1)
    (reasonPfx caught) exception_fqdn class_fqdn method

/-- Spec phrasing of one shrink strategy: strip a name down to the substring
after its last namespace separator (identity when there is no separator). -/
def stripNamespace (s : List Char) : List Char := (afterLastDot s).getD s

/-- Modelled from the spec (section 4.4 ReasonFormatter): render, and if the
result meets or exceeds the budget shrink in the fixed priority order -
(a) strip the class name after its last namespace separator, (b) strip the
fault-type name the same way, (c) drop the class qualifier entirely -
re-rendering after each step, returning the truncated best-effort string when
all strategies are exhausted. -/
def formatCascade (pfx en cn m : List Char) : List Char :=
  let r0 := renderedReason pfx en cn m
  if r0.length < MAX_REASON_MESSAGE_STRING_LENGTH then r0 else
  let cn1 := stripNamespace cn
  let r1 := renderedReason pfx en cn1 m
  if r1.length < MAX_REASON_MESSAGE_STRING_LENGTH then r1 else
  let en1 := stripNamespace en
  let r2 := renderedReason pfx en1 cn1 m
  if r2.length < MAX_REASON_MESSAGE_STRING_LENGTH then r2 else
  let r3 := renderedReason pfx en1 [] m
  if r3.length < MAX_REASON_MESSAGE_STRING_LENGTH then r3 else
  r3.take (MAX_REASON_MESSAGE_STRING_LENGTH - 1)

/-- The ReasonFormatter as the spec states it, for comparison with the
embedded source function. -/
def reason_formatter_spec (caught : Bool) (en cn m : List Char) : List Char :=
  formatCascade (reasonPfx caught) en cn m

theorem afterLastDot_length {s r : List Char} (h : afterLastDot s = some r) :
    r.length < s.length := by
  induction s with
  | nil => simp [afterLastDot] at h
  | cons c rest ih =>
    simp only [afterLastDot] at h
    cases hrec : afterLastDot rest with
    | some r0 =>
      rw [hrec] at h
      cases h
      exact Nat.lt_trans (ih hrec) (by simp)
    | none =>
      rw [hrec] at h
      by_cases hc : c = '.'
      · simp [hc] at h
        subst h
        simp
      · simp [hc] at h

theorem afterLastDot_eq_none {s : List Char} :
    afterLastDot s = none ↔ '.' ∉ s := by
  induction s with
  | nil => simp [afterLastDot]
  | cons c rest ih =>
    simp only [afterLastDot]
    cases hrec : afterLastDot rest with
    | some r0 =>
      simp only [List.mem_cons]
      constructor
      · intro h; cases h
      · intro h
        exact absurd (ih.mpr (fun hm => h (Or.inr hm))) (by simp [hrec])
    | none =>
      by_cases hc : c = '.'
      · simp [hc]
      · simp [hc, List.mem_cons, ih.mp hrec]
        intro h
        exact hc (h.symm)

theorem afterLastDot_no_dot {s r : List Char} (h : afterLastDot s = some r) :
    afterLastDot r = none := by
  induction s with
  | nil => simp [afterLastDot] at h
  | cons c rest ih =>
    simp only [afterLastDot] at h
    cases hrec : afterLastDot rest with
    | some r0 =>
      rw [hrec] at h
      cases h
      exact ih hrec
    | none =>
      rw [hrec] at h
      by_cases hc : c = '.'
      · simp [hc] at h
        subst h
        exact hrec
      · simp [hc] at h

theorem renderedReason_length_pos (pfx en cn m : List Char) :
    0 < (renderedReason pfx en cn m).length := by
  simp [renderedReason]

theorem stripNamespace_of_none {s : List Char} (h : afterLastDot s = none) :
    stripNamespace s = s := by
  simp [stripNamespace, h]

theorem stripNamespace_of_some {s r : List Char} (h : afterLastDot s = some r) :
    stripNamespace s = r := by
  simp [stripNamespace, h]

theorem cascade_fits {pfx en cn m : List Char}
    (h : (renderedReason pfx en cn m).length < MAX_REASON_MESSAGE_STRING_LENGTH) :
    formatCascade pfx en cn m = renderedReason pfx en cn m := by
  simp only [formatCascade]
  rw [if_pos h]

theorem stripNamespace_nil : stripNamespace [] = [] := rfl

theorem cascade_step_a {pfx en cn cn' m : List Char}
    (hb : MAX_REASON_MESSAGE_STRING_LENGTH ≤ (renderedReason pfx en cn m).length)
    (hcn : afterLastDot cn = some cn') :
    formatCascade pfx en cn m = formatCascade pfx en cn' m := by
  have hcn' : stripNamespace cn' = cn' := stripNamespace_of_none (afterLastDot_no_dot hcn)
  simp only [formatCascade, stripNamespace_of_some hcn, hcn']
  split_ifs <;> first | rfl | omega

theorem cascade_step_b {pfx en en' cn m : List Char}
    (hb : MAX_REASON_MESSAGE_STRING_LENGTH ≤ (renderedReason pfx en cn m).length)
    (hcn : afterLastDot cn = none)
    (hen : afterLastDot en = some en') :
    formatCascade pfx en cn m = formatCascade pfx en' cn m := by
  have hen' : stripNamespace en' = en' := stripNamespace_of_none (afterLastDot_no_dot hen)
  simp only [formatCascade, stripNamespace_of_none hcn, stripNamespace_of_some hen, hen']
  split_ifs <;> first | rfl | omega

theorem cascade_step_c {pfx en cn m : List Char}
    (hb : MAX_REASON_MESSAGE_STRING_LENGTH ≤ (renderedReason pfx en cn m).length)
    (hcn : afterLastDot cn = none)
    (hen : afterLastDot en = none) :
    formatCascade pfx en cn m = formatCascade pfx en [] m := by
  simp only [formatCascade, stripNamespace_of_none hcn, stripNamespace_of_none hen,
    stripNamespace_nil]
  split_ifs <;> first | rfl | omega

theorem cascade_last {pfx en m : List Char}
    (hb : MAX_REASON_MESSAGE_STRING_LENGTH ≤ (renderedReason pfx en [] m).length)
    (hen : afterLastDot en = none) :
    formatCascade pfx en [] m =
      (renderedReason pfx en [] m).take (MAX_REASON_MESSAGE_STRING_LENGTH - 1) := by
  simp only [formatCascade, stripNamespace_of_none hen, stripNamespace_nil]
  split_ifs <;> first | rfl | omega

/-- Each iteration of the source loop agrees with the spec cascade, so the
loop run with fuel exceeding the shrink measure returns exactly the string the
spec describes. -/
theorem formatReasonLoop_eq_cascade (fuel : Nat) : ∀ (pfx en cn m : List Char),
    cn.length + en.length < fuel →
    formatReasonLoop fuel pfx en cn m = Except.ok (formatCascade pfx en cn m) := by
  induction fuel with
  | zero => intro pfx en cn m h; omega
  | succ f ih =>
    intro pfx en cn m h
    have hpos := renderedReason_length_pos pfx en cn m
    simp only [formatReasonLoop]
    rw [if_neg (by omega)]
    by_cases hb : MAX_REASON_MESSAGE_STRING_LENGTH ≤ (renderedReason pfx en cn m).length
    · rw [if_pos hb]
      cases hcn : afterLastDot cn with
      | some cn' =>
        rw [cascade_step_a hb hcn]
        exact ih pfx en cn' m (by have := afterLastDot_length hcn; omega)
      | none =>
        cases hen : afterLastDot en with
        | some en' =>
          rw [cascade_step_b hb hcn hen]
          exact ih pfx en' cn m (by have := afterLastDot_length hen; omega)
        | none =>
          by_cases hcne : cn.isEmpty
          · rw [if_pos hcne]
            have hcn0 : cn = [] := List.isEmpty_iff.mp hcne
            subst hcn0
            rw [cascade_last hb hen]
          · rw [if_neg hcne]
            have hcn1 : cn ≠ [] := fun hx => hcne (by simp [hx])
            rw [cascade_step_c hb hcn hen]
            exact ih pfx en [] m
              (by have : 1 ≤ cn.length := List.length_pos.mpr hcn1; simp; omega)
    · rw [if_neg hb]
      rw [cascade_fits (by omega), List.take_of_length_le (by omega)]

/-- The source formatter equals the spec cascade on every input. -/
theorem format_eq_spec (caught : Bool) (en cn m : List Char) :
    format_exception_reason_message caught en cn m =
      Except.ok (reason_formatter_spec caught en cn m) :=
  formatReasonLoop_eq_cascade _ _ _ _ _ (by omega)

/-- The spec cascade never yields more than MAX - 1 = 254 characters. -/
theorem formatCascade_length (pfx en cn m : List Char) :
    (formatCascade pfx en cn m).length ≤ MAX_REASON_MESSAGE_STRING_LENGTH - 1 := by
  simp only [formatCascade]
  split_ifs with h1 h2 h3 h4 <;>
    simp_all [List.length_take, MAX_REASON_MESSAGE_STRING_LENGTH] <;> omega

/-- Every branch of the cascade yields a string starting with the chosen
prefix, as long as the prefix fits the truncation budget. -/
theorem formatCascade_take_pfx (pfx en cn m : List Char)
    (h : pfx.length ≤ MAX_REASON_MESSAGE_STRING_LENGTH - 1) :
    (formatCascade pfx en cn m).take pfx.length = pfx := by
  have hr : ∀ en' cn' : List Char, (renderedReason pfx en' cn' m).take pfx.length = pfx := by
    intro en' cn'
    simp only [renderedReason, List.append_assoc]
    exact List.take_left pfx _
  simp only [formatCascade]
  split_ifs <;> first
    | exact hr _ _
    | (rw [List.take_take]
       rw [min_eq_left h]
       exact hr _ _)

/-- Modelled from the spec: the jthrowable_circular_buf implementation is not
part of this source file (only its declarations and callers are); per spec
section 3, it is a ring of capacity K whose push overwrites the oldest slot
when full and whose find is a linear membership test.  `entries` lists the
retained fault identities, most recent first. -/
structure T_jthrowableCircularBuf where
  capacity : Nat
  entries : List Nat
deriving DecidableEq

/-- Modelled from the spec: constructor of an empty ring with capacity fixed
at construction. -/
def jthrowable_circular_buf_new (capacity : Nat) : T_jthrowableCircularBuf :=
  { capacity := capacity, entries := [] }

/-- Modelled from the spec: push inserts the identity, overwriting the oldest
slot when the ring is full. -/
def jthrowable_circular_buf_push (buf : T_jthrowableCircularBuf) (id : Nat) :
    T_jthrowableCircularBuf :=
  { capacity := buf.capacity, entries := (id :: buf.entries).take buf.capacity }

/-- Modelled from the spec: find is a linear membership test on the retained
identities. -/
def jthrowable_circular_buf_find (buf : T_jthrowableCircularBuf) (id : Nat) : Bool :=
  buf.entries.contains id

/-- create_exception_buf_for_thread (abrt-checker.c lines 1497-1510) builds a
ring of capacity REPORTED_EXCEPTION_STACK_CAPACITY and installs it as the
thread's dedup buffer; allocation failure is outside the embedding. -/
def create_exception_buf_for_thread : T_jthrowableCircularBuf :=
  jthrowable_circular_buf_new REPORTED_EXCEPTION_STACK_CAPACITY

/-- T_exceptionReport from abrt-checker.c: the pending record parked for a
top-level throw.  The fault identity `exception_object` is opaque, modelled
as Nat, compared only for equality. -/
structure T_exceptionReport where
  message : Option (List Char)
  stacktrace : Option (List Char)
  executable : Option (List Char)
  exception_type_name : List Char
  additional_info : List (List Char × List Char)
  exception_object : Nat
deriving DecidableEq

/-- The configuration fields the engine reads: the list of exception type
names to report even when caught (NULL pointer becomes `none`). -/
structure T_configuration where
  reportedCaughExceptionTypes : Option (List (List Char))
deriving DecidableEq

/-- The engine's read-only surroundings: globalConfig and
processProperties.main_class (used as fallback executable). -/
structure Env where
  globalConfig : T_configuration
  main_class : Option (List Char)
deriving DecidableEq

/-- The per-thread slice of the two registries: threadMap's dedup buffer and
uncaughtExceptionMap's pending record, each at most one per thread. -/
structure ThreadState where
  threads_exc_buf : Option T_jthrowableCircularBuf
  pending : Option T_exceptionReport
deriving DecidableEq

/-- A throw event with the collaborator lookups already resolved:
`catchKnown` is whether catch_method was non-NULL, the names are the resolved
exception type / declaring class / method strings, and the remaining fields
are the data the handler would gather for the record. -/
structure ThrowEvent where
  exception_object : Nat
  catchKnown : Bool
  exception_type_name : List Char
  class_name : List Char
  method_name : List Char
  stacktrace : Option (List Char)
  executable : Option (List Char)
  additional_info : List (List Char × List Char)
deriving DecidableEq

/-- A catch event with resolved catch-site names. -/
structure CatchEvent where
  exception_object : Nat
  class_name : List Char
  method_name : List Char
deriving DecidableEq

/-- One call into the report sink (report_stacktrace).  `reported_object`
records which fault identity the report concerns, for stating dedup
properties. -/
structure Report where
  executable : Option (List Char)
  message : List Char
  stacktrace : Option (List Char)
  additional_info : List (List Char × List Char)
  reported_object : Nat
deriving DecidableEq

/-- Result of one handler invocation: the new per-thread state, the reports
emitted to the sink, and the pending records freed by the handler. -/
structure StepResult where
  state : ThreadState
  emits : List Report
  freed : List T_exceptionReport
deriving DecidableEq

/-- exception_is_intended_to_be_reported (abrt-checker.c lines 533-562): true
iff an allow-list is configured and contains the exception's type name. -/
def exception_is_intended_to_be_reported (cfg : T_configuration)
    (exception_type : List Char) : Bool :=
  match cfg.reportedCaughExceptionTypes with
  | none => false
  | some types => types.contains exception_type

/-- The dedup guard used by all three handlers:
`NULL == threads_exc_buf || NULL == jthrowable_circular_buf_find(...)`. -/
def not_already_reported (buf : Option T_jthrowableCircularBuf) (id : Nat) : Bool :=
  match buf with
  | none => true
  | some b => !(jthrowable_circular_buf_find b id)

/-- The pending record built by callback_on_exception for a top-level throw
(abrt-checker.c lines 2384-2411): formatted message plus the gathered event
data, with ownership of all fields moved into the record. -/
def mkPendingRecord (ev : ThrowEvent) : T_exceptionReport :=
  { message := (format_exception_reason_message false ev.exception_type_name
      ev.class_name ev.method_name).toOption
    stacktrace := ev.stacktrace
    executable := ev.executable
    exception_type_name := ev.exception_type_name
    additional_info := ev.additional_info
    exception_object := ev.exception_object }

/-- The report emitted by callback_on_exception for an allow-listed caught
exception at throw time: caught phrasing with the "Caught exception" fallback
when formatting failed, executable falling back to the process main class. -/
def mkCaughtThrowReport (env : Env) (ev : ThrowEvent) : Report :=
  { executable := ev.executable.orElse (fun _ => env.main_class)
    message := ((format_exception_reason_message true ev.exception_type_name
        ev.class_name ev.method_name).toOption).getD (("Caught exception").toList)
    stacktrace := ev.stacktrace
    additional_info := ev.additional_info
    reported_object := ev.exception_object }

/-- The report emitted by callback_on_exception_catch when a pending record
is resolved by a matching catch: caught phrasing rendered from the record's
type name and the catch site's class/method. -/
def mkCaughtReport (env : Env) (ev : CatchEvent) (rpt : T_exceptionReport) : Report :=
  { executable := rpt.executable.orElse (fun _ => env.main_class)
    message := ((format_exception_reason_message true rpt.exception_type_name
        ev.class_name ev.method_name).toOption).getD (("Caught exception").toList)
    stacktrace := rpt.stacktrace
    additional_info := rpt.additional_info
    reported_object := rpt.exception_object }

/-- The report emitted by callback_on_thread_end when flushing a pending
record: the message captured at throw time (uncaught phrasing), with the
"Uncaught exception" fallback. -/
def mkUncaughtReport (env : Env) (rpt : T_exceptionReport) : Report :=
  { executable := rpt.executable.orElse (fun _ => env.main_class)
    message := rpt.message.getD (("Uncaught exception").toList)
    stacktrace := rpt.stacktrace
    additional_info := rpt.additional_info
    reported_object := rpt.exception_object }

/-- callback_on_exception (abrt-checker.c lines 2302-2465), on the happy path
of the collaborator lookups.  Caught exceptions with no allow-list configured
return at once; otherwise, when the throw is top-level or the type is on the
allow-list and the identity is not in the thread's dedup buffer, a top-level
throw parks a pending record while an allow-listed caught throw reports
immediately and pushes the identity into the (possibly fresh) buffer. -/
def callback_on_exception (env : Env) (ev : ThrowEvent) (st : ThreadState) :
    StepResult :=
  if ev.catchKnown ∧ env.globalConfig.reportedCaughExceptionTypes = none then
    { state := st, emits := [], freed := [] }
  else if ev.catchKnown = false ∨
      exception_is_intended_to_be_reported env.globalConfig ev.exception_type_name then
    if not_already_reported st.threads_exc_buf ev.exception_object then
      if ev.catchKnown = false then
        { state := { threads_exc_buf := st.threads_exc_buf,
                     pending := some (mkPendingRecord ev) }
          emits := [], freed := [] }
      else
        { state := { threads_exc_buf := some (jthrowable_circular_buf_push
              (st.threads_exc_buf.getD create_exception_buf_for_thread)
              ev.exception_object)
                     pending := st.pending }
          emits := [mkCaughtThrowReport env ev]
          freed := [] }
    else
      { state := st, emits := [], freed := [] }
  else
    { state := st, emits := [], freed := [] }

/-- callback_on_exception_catch (abrt-checker.c lines 2471-2604), happy path.
No pending record, or a pending record whose identity differs from the caught
one, exits without touching anything.  On an identity match the record is
popped; if its type is on the allow-list and its identity is not in the dedup
buffer, a caught-phrased report is emitted and the identity pushed; the
popped record is freed in every matched case. -/
def callback_on_exception_catch (env : Env) (ev : CatchEvent) (st : ThreadState) :
    StepResult :=
  match st.pending with
  | none => { state := st, emits := [], freed := [] }
  | some rpt =>
    if ev.exception_object = rpt.exception_object then
      if exception_is_intended_to_be_reported env.globalConfig
          rpt.exception_type_name then
        if not_already_reported st.threads_exc_buf rpt.exception_object then
          { state := { threads_exc_buf := some (jthrowable_circular_buf_push
                (st.threads_exc_buf.getD create_exception_buf_for_thread)
                rpt.exception_object)
                       pending := none }
            emits := [mkCaughtReport env ev rpt]
            freed := [rpt] }
        else
          { state := { threads_exc_buf := st.threads_exc_buf, pending := none }
            emits := [], freed := [rpt] }
      else
        { state := { threads_exc_buf := st.threads_exc_buf, pending := none }
          emits := [], freed := [rpt] }
    else
      { state := st, emits := [], freed := [] }

/-- callback_on_thread_end (abrt-checker.c lines 1517-1558): pop both
registries; when a pending record existed and its identity is not in the
popped dedup buffer, emit it with uncaught phrasing (falling back to the
process main class); free record and buffer.  No per-thread entry survives. -/
def callback_on_thread_end (env : Env) (st : ThreadState) : StepResult :=
  match st.pending with
  | some rpt =>
    { state := { threads_exc_buf := none, pending := none }
      emits :=
        if not_already_reported st.threads_exc_buf rpt.exception_object then
          [mkUncaughtReport env rpt]
        else []
      freed := [rpt] }
  | none => { state := { threads_exc_buf := none, pending := none }, emits := [], freed := [] }

/-- The three events the engine consumes for one thread. -/
inductive JvmtiEvent where
  | onThrow : ThrowEvent → JvmtiEvent
  | onCatch : CatchEvent → JvmtiEvent
  | onThreadEnd : JvmtiEvent
deriving DecidableEq

/-- Dispatch one event to its handler. -/
def dispatch (env : Env) (e : JvmtiEvent) (st : ThreadState) : StepResult :=
  match e with
  | JvmtiEvent.onThrow ev => callback_on_exception env ev st
  | JvmtiEvent.onCatch ev => callback_on_exception_catch env ev st
  | JvmtiEvent.onThreadEnd => callback_on_thread_end env st

/-- Run a sequence of events for one thread, collecting every report emitted
to the sink in order. -/
def runEvents (env : Env) (st : ThreadState) : List JvmtiEvent →
    ThreadState × List Report
  | [] => (st, [])
  | e :: rest =>
    let r := dispatch env e st
    let tail := runEvents env r.state rest
    (tail.1, r.emits ++ tail.2)

/-- The empty per-thread state: no dedup buffer, no pending record. -/
def initialThreadState : ThreadState :=
  { threads_exc_buf := none, pending := none }

theorem format_toOption (caught : Bool) (en cn m : List Char) :
    (format_exception_reason_message caught en cn m).toOption =
      some (reason_formatter_spec caught en cn m) := by
  rw [format_eq_spec]
  rfl

theorem spec_take_caught (en cn m : List Char) :
    (reason_formatter_spec true en cn m).take 6 = ("Caught").toList := by
  have h := formatCascade_take_pfx (reasonPfx true) en cn m (by decide)
  simpa [reason_formatter_spec, reasonPfx] using h

theorem spec_take_uncaught (en cn m : List Char) :
    (reason_formatter_spec false en cn m).take 8 = ("Uncaught").toList := by
  have h := formatCascade_take_pfx (reasonPfx false) en cn m (by decide)
  simpa [reason_formatter_spec, reasonPfx] using h

theorem on_exception_uncaught (env : Env) (ev : ThrowEvent) (st : ThreadState)
    (hck : ev.catchKnown = false)
    (hded : not_already_reported st.threads_exc_buf ev.exception_object = true) :
    callback_on_exception env ev st =
      { state := { threads_exc_buf := st.threads_exc_buf,
                   pending := some (mkPendingRecord ev) }
        emits := [], freed := [] } := by
  simp [callback_on_exception, hck, hded]

theorem on_catch_match_emit (env : Env) (ev : CatchEvent) (st : ThreadState)
    (rpt : T_exceptionReport)
    (hp : st.pending = some rpt)
    (hid : ev.exception_object = rpt.exception_object)
    (hallow : exception_is_intended_to_be_reported env.globalConfig
      rpt.exception_type_name = true)
    (hded : not_already_reported st.threads_exc_buf rpt.exception_object = true) :
    callback_on_exception_catch env ev st =
      { state := { threads_exc_buf := some (jthrowable_circular_buf_push
            (st.threads_exc_buf.getD create_exception_buf_for_thread)
            rpt.exception_object)
                   pending := none }
        emits := [mkCaughtReport env ev rpt]
        freed := [rpt] } := by
  simp [callback_on_exception_catch, hp, hid, hallow, hded]

theorem on_thread_end_pending (env : Env) (st : ThreadState)
    (rpt : T_exceptionReport)
    (hp : st.pending = some rpt)
    (hded : not_already_reported st.threads_exc_buf rpt.exception_object = true) :
    callback_on_thread_end env st =
      { state := { threads_exc_buf := none, pending := none }
        emits := [mkUncaughtReport env rpt]
        freed := [rpt] } := by
  simp [callback_on_thread_end, hp, hded]

/-- A configuration with no report-even-if-caught allow-list (the default). -/
def envNoList : Env :=
  { globalConfig := { reportedCaughExceptionTypes := none }
    main_class := some (("Main").toList) }

/-- A configuration whose allow-list holds java.lang.RuntimeException. -/
def envWithList : Env :=
  { globalConfig :=
      { reportedCaughExceptionTypes := some [("java.lang.RuntimeException").toList] }
    main_class := some (("Main").toList) }

/-- A concrete top-level throw of fault identity 1. -/
def sampleThrow : ThrowEvent :=
  { exception_object := 1
    catchKnown := false
    exception_type_name := ("java.lang.RuntimeException").toList
    class_name := ("com.example.Main").toList
    method_name := ("run").toList
    stacktrace := some (("trace").toList)
    executable := none
    additional_info := [] }

/-- A concrete catch of fault identity 1. -/
def sampleCatch : CatchEvent :=
  { exception_object := 1
    class_name := ("com.example.Handler").toList
    method_name := ("handle").toList }

/-- A stale pending record for fault identity 2. -/
def staleRecord : T_exceptionReport :=
  { message := some (("old message").toList)
    stacktrace := none
    executable := none
    exception_type_name := ("java.lang.Error").toList
    additional_info := []
    exception_object := 2 }

/-- A thread state already holding the stale pending record. -/
def stStale : ThreadState := { threads_exc_buf := none, pending := some staleRecord }

/-- A thread state whose dedup buffer already contains fault identity 1. -/
def stBufHasOne : ThreadState :=
  { threads_exc_buf := some { capacity := 5, entries := [1] }, pending := none }

/-- A caught throw whose type is not on envWithList's allow-list. -/
def sampleThrowCaughtOther : ThrowEvent :=
  { exception_object := 4
    catchKnown := true
    exception_type_name := ("java.lang.Error").toList
    class_name := ("com.example.Main").toList
    method_name := ("run").toList
    stacktrace := some (("trace").toList)
    executable := none
    additional_info := [] }

/-- C6: an on-catch whose fault identity does not equal the identity stored
in the thread's pending record, or for which no pending record exists, leaves
the pending registry (and everything else) untouched and emits no report. -/
theorem C6_catch_mismatch_no_effect (env : Env) (ev : CatchEvent) (st : ThreadState)
    (h : st.pending.all (fun rpt => ev.exception_object != rpt.exception_object) = true) :
    callback_on_exception_catch env ev st = { state := st, emits := [], freed := [] } := by
  cases hp : st.pending with
  | none => simp [callback_on_exception_catch, hp]
  | some rpt =>
    have hne : ¬(ev.exception_object = rpt.exception_object) := by
      rw [hp] at h
      simpa using h
    simp [callback_on_exception_catch, hp, hne]

/-- Witness for C6 at a concrete mismatched catch. -/
theorem C6_witness :
    stStale.pending.all
      (fun rpt => sampleCatch.exception_object != rpt.exception_object) = true ∧
    callback_on_exception_catch envNoList sampleCatch stStale =
      { state := stStale, emits := [], freed := [] } :=
  ⟨by decide, C6_catch_mismatch_no_effect envNoList sampleCatch stStale (by decide)⟩

/-- C8: an on-throw with known catch location whose type is not on the
allow-list takes no action: no emit, no freed record, state unchanged. -/
theorem C8_caught_not_listed_no_action (env : Env) (ev : ThrowEvent) (st : ThreadState)
    (hck : ev.catchKnown = true)
    (hallow : exception_is_intended_to_be_reported env.globalConfig
      ev.exception_type_name = false) :
    callback_on_exception env ev st = { state := st, emits := [], freed := [] } := by
  by_cases hnone : env.globalConfig.reportedCaughExceptionTypes = none
  · simp [callback_on_exception, hck, hnone]
  · simp [callback_on_exception, hck, hnone, hallow]

/-- Witness for C8 at a concrete caught, non-allow-listed throw. -/
theorem C8_witness :
    sampleThrowCaughtOther.catchKnown = true ∧
    exception_is_intended_to_be_reported envWithList.globalConfig
      sampleThrowCaughtOther.exception_type_name = false ∧
    callback_on_exception envWithList sampleThrowCaughtOther stStale =
      { state := stStale, emits := [], freed := [] } :=
  ⟨by decide, by decide,
    C8_caught_not_listed_no_action envWithList sampleThrowCaughtOther stStale
      (by decide) (by decide)⟩

/-- C5: a top-level throw whose identity is not in the thread's dedup buffer,
followed by thread end with no intervening catch, yields exactly one report,
phrased with the Uncaught prefix. -/
theorem C5_throw_then_end_uncaught_once (env : Env) (ev : ThrowEvent) (st : ThreadState)
    (hck : ev.catchKnown = false)
    (hded : not_already_reported st.threads_exc_buf ev.exception_object = true) :
    (callback_on_exception env ev st).emits = [] ∧
    ((callback_on_thread_end env (callback_on_exception env ev st).state).emits.map
      (fun r => (r.message.take 8, r.reported_object)))
      = [(("Uncaught").toList, ev.exception_object)] := by
  rw [on_exception_uncaught env ev st hck hded]
  refine ⟨rfl, ?_⟩
  have hd : not_already_reported
      (({ threads_exc_buf := st.threads_exc_buf,
          pending := some (mkPendingRecord ev) } : ThreadState)).threads_exc_buf
      (mkPendingRecord ev).exception_object = true := by
    simpa [mkPendingRecord] using hded
  rw [on_thread_end_pending env _ (mkPendingRecord ev) rfl hd]
  simp [mkUncaughtReport, mkPendingRecord, format_toOption, spec_take_uncaught]

/-- Witness for C5 at a concrete uncaught throw. -/
theorem C5_witness :
    sampleThrow.catchKnown = false ∧
    not_already_reported initialThreadState.threads_exc_buf
      sampleThrow.exception_object = true ∧
    ((callback_on_thread_end envNoList
        (callback_on_exception envNoList sampleThrow initialThreadState).state).emits.map
      (fun r => (r.message.take 8, r.reported_object)))
      = [(("Uncaught").toList, sampleThrow.exception_object)] :=
  ⟨rfl, rfl,
    (C5_throw_then_end_uncaught_once envNoList sampleThrow initialThreadState rfl rfl).2⟩

/-- C1 as stated is false: with no allow-list configured, a parked top-level
throw of identity 1 (not in the dedup buffer) followed by a matching catch and
thread end yields zero emitted reports, not one: the catch handler re-checks
the allow-list before emitting. -/
theorem C1_counterexample :
    (runEvents envNoList initialThreadState
      [JvmtiEvent.onThrow sampleThrow, JvmtiEvent.onCatch sampleCatch,
        JvmtiEvent.onThreadEnd]).2.length = 0 := by
  decide

/-- C1 amended: additionally requiring that the fault's type name is on the
report-even-if-caught allow-list, the throw parks silently, the matching
catch emits exactly one report phrased with the Caught prefix, and the
thread-end flush emits nothing further. -/
theorem C1_throw_catch_end_caught_once (env : Env) (ev : ThrowEvent) (cev : CatchEvent)
    (st : ThreadState)
    (hck : ev.catchKnown = false)
    (hid : cev.exception_object = ev.exception_object)
    (hded : not_already_reported st.threads_exc_buf ev.exception_object = true)
    (hallow : exception_is_intended_to_be_reported env.globalConfig
      ev.exception_type_name = true) :
    (callback_on_exception env ev st).emits = [] ∧
    ((callback_on_exception_catch env cev
        (callback_on_exception env ev st).state).emits.map
      (fun r => (r.message.take 6, r.reported_object)))
      = [(("Caught").toList, ev.exception_object)] ∧
    (callback_on_thread_end env
      (callback_on_exception_catch env cev
        (callback_on_exception env ev st).state).state).emits = [] := by
  have hcatch := on_catch_match_emit env cev
    ({ threads_exc_buf := st.threads_exc_buf,
       pending := some (mkPendingRecord ev) } : ThreadState)
    (mkPendingRecord ev) rfl
    (by simpa [mkPendingRecord] using hid)
    (by simpa [mkPendingRecord] using hallow)
    (by simpa [mkPendingRecord] using hded)
  rw [on_exception_uncaught env ev st hck hded, hcatch]
  refine ⟨rfl, ?_, ?_⟩
  · simp [mkCaughtReport, mkPendingRecord, format_toOption, spec_take_caught]
  · simp [callback_on_thread_end]

/-- Witness for the amended C1 at a concrete allow-listed fault. -/
theorem C1_witness :
    sampleThrow.catchKnown = false ∧
    sampleCatch.exception_object = sampleThrow.exception_object ∧
    not_already_reported initialThreadState.threads_exc_buf
      sampleThrow.exception_object = true ∧
    exception_is_intended_to_be_reported envWithList.globalConfig
      sampleThrow.exception_type_name = true ∧
    ((callback_on_exception_catch envWithList sampleCatch
        (callback_on_exception envWithList sampleThrow initialThreadState).state).emits.map
      (fun r => (r.message.take 6, r.reported_object)))
      = [(("Caught").toList, sampleThrow.exception_object)] :=
  ⟨rfl, rfl, rfl, by decide,
    (C1_throw_catch_end_caught_once envWithList sampleThrow sampleCatch
      initialThreadState rfl rfl rfl (by decide)).2.1⟩

/-- C2 as stated is false in two places: with a stale pending record present,
the top-level throw handler frees nothing (the prior record is silently
discarded, freed list empty), and when the thrown identity is already in the
thread's dedup buffer nothing is stored at all. -/
theorem C2_counterexample :
    (callback_on_exception envNoList sampleThrow stStale).freed = [] ∧
    (callback_on_exception envNoList sampleThrow stStale).state.pending ≠
      some staleRecord ∧
    (callback_on_exception envNoList sampleThrow stBufHasOne).state.pending = none := by
  decide

/-- C2 amended: for a top-level throw whose identity is not in the thread's
dedup buffer, the handler builds a pending record holding the formatted
message, stack trace, executable, fault-type name, additional info and fault
identity, and stores it without checking for a prior entry, replacing any
stale prior pending record without freeing it. -/
theorem C2_throw_parks_record (env : Env) (ev : ThrowEvent) (st : ThreadState)
    (hck : ev.catchKnown = false)
    (hded : not_already_reported st.threads_exc_buf ev.exception_object = true) :
    callback_on_exception env ev st =
      { state := { threads_exc_buf := st.threads_exc_buf,
                   pending := some (mkPendingRecord ev) }
        emits := [], freed := [] } ∧
    (mkPendingRecord ev).stacktrace = ev.stacktrace ∧
    (mkPendingRecord ev).executable = ev.executable ∧
    (mkPendingRecord ev).exception_type_name = ev.exception_type_name ∧
    (mkPendingRecord ev).additional_info = ev.additional_info ∧
    (mkPendingRecord ev).exception_object = ev.exception_object ∧
    (mkPendingRecord ev).message =
      some (reason_formatter_spec false ev.exception_type_name ev.class_name
        ev.method_name) := by
  refine ⟨on_exception_uncaught env ev st hck hded, rfl, rfl, rfl, rfl, rfl, ?_⟩
  simp [mkPendingRecord, format_toOption]

/-- Witness for the amended C2 on a state holding a stale pending record. -/
theorem C2_witness :
    sampleThrow.catchKnown = false ∧
    not_already_reported stStale.threads_exc_buf sampleThrow.exception_object = true ∧
    callback_on_exception envNoList sampleThrow stStale =
      { state := { threads_exc_buf := stStale.threads_exc_buf,
                   pending := some (mkPendingRecord sampleThrow) }
        emits := [], freed := [] } :=
  ⟨rfl, rfl, (C2_throw_parks_record envNoList sampleThrow stStale rfl rfl).1⟩

/-- C3: the reason formatter's output never exceeds the 255-byte budget, and
the shrink strategies are applied strictly in the spec's priority order: the
embedded source loop computes exactly the spec-side cascade (strip the class
namespace, then the fault-type namespace, then drop the class qualifier,
re-rendering after each step). -/
theorem C3_formatter_bounded_ordered (caught : Bool) (en cn m : List Char) :
    format_exception_reason_message caught en cn m =
      Except.ok (reason_formatter_spec caught en cn m) ∧
    (reason_formatter_spec caught en cn m).length ≤ MAX_REASON_MESSAGE_STRING_LENGTH :=
  ⟨format_eq_spec caught en cn m,
   le_trans (formatCascade_length (reasonPfx caught) en cn m) (by omega)⟩

/-- C4: the reason formatter never fails: for every input it returns a
(possibly truncated) string; neither of its embedded error branches (fuel and
the snprintf length check) is ever taken. -/
theorem C4_formatter_never_fails (caught : Bool) (en cn m : List Char) :
    ∃ s, format_exception_reason_message caught en cn m = Except.ok s :=
  ⟨reason_formatter_spec caught en cn m, format_eq_spec caught en cn m⟩

/-- C10: the shrink-and-re-render loop terminates on every input: each
namespace-stripping step strictly shortens the suffix in use, so fuel
exceeding the combined name length always reaches a return. -/
theorem C10_loop_terminates :
    (∀ (s r : List Char), afterLastDot s = some r → r.length < s.length) ∧
    (∀ (fuel : Nat) (pfx en cn m : List Char), cn.length + en.length < fuel →
      ∃ s, formatReasonLoop fuel pfx en cn m = Except.ok s) :=
  ⟨fun _ _ h => afterLastDot_length h,
   fun fuel pfx en cn m h =>
    ⟨formatCascade pfx en cn m, formatReasonLoop_eq_cascade fuel pfx en cn m h⟩⟩

/-- Witness for C10 at concrete inputs. -/
theorem C10_witness :
    afterLastDot (("a.b").toList) = some (("b").toList) ∧
    (("b").toList).length < (("a.b").toList).length ∧
    ∃ s, formatReasonLoop 1 (("Uncaught").toList) [] [] [] = Except.ok s :=
  ⟨by decide, C10_loop_terminates.1 (("a.b").toList) (("b").toList) (by decide),
   C10_loop_terminates.2 1 (("Uncaught").toList) [] [] [] (by decide)⟩

theorem take_append_take (n : Nat) (l t : List Nat) :
    (l ++ t.take n).take n = (l ++ t).take n := by
  rw [List.take_append_eq_append_take, List.take_append_eq_append_take, List.take_take,
    min_eq_left (Nat.sub_le n l.length)]

theorem foldl_push (xs : List Nat) : ∀ (b : T_jthrowableCircularBuf),
    b.entries.length ≤ b.capacity →
    (xs.foldl jthrowable_circular_buf_push b).capacity = b.capacity ∧
    (xs.foldl jthrowable_circular_buf_push b).entries =
      (xs.reverse ++ b.entries).take b.capacity := by
  induction xs with
  | nil =>
    intro b hb
    exact ⟨rfl, by simp [List.take_of_length_le hb]⟩
  | cons y ys ih =>
    intro b hb
    have hb' : (jthrowable_circular_buf_push b y).entries.length ≤
        (jthrowable_circular_buf_push b y).capacity := by
      simp [jthrowable_circular_buf_push, List.length_take]
    obtain ⟨hcap, hent⟩ := ih (jthrowable_circular_buf_push b y) hb'
    refine ⟨by rw [List.foldl_cons, hcap]; rfl, ?_⟩
    rw [List.foldl_cons, hent]
    simp only [jthrowable_circular_buf_push]
    rw [take_append_take]
    simp [List.append_assoc]

/-- C9: the dedup ring has its capacity fixed at construction (5 by default
via REPORTED_EXCEPTION_STACK_CAPACITY), retains exactly the K most recent
pushed identities, and with capacity 2 after pushes 0, 1, 2 finds 1 and 2 but
no longer 0. -/
theorem C9_dedup_ring_retention (K : Nat) (xs : List Nat) (x : Nat) :
    REPORTED_EXCEPTION_STACK_CAPACITY = 5 ∧
    create_exception_buf_for_thread.capacity = 5 ∧
    (jthrowable_circular_buf_find
        (xs.foldl jthrowable_circular_buf_push (jthrowable_circular_buf_new K)) x = true
      ↔ x ∈ xs.reverse.take K) ∧
    (jthrowable_circular_buf_find
        (([0, 1, 2] : List Nat).foldl jthrowable_circular_buf_push
          (jthrowable_circular_buf_new 2)) 0 = false ∧
      jthrowable_circular_buf_find
        (([0, 1, 2] : List Nat).foldl jthrowable_circular_buf_push
          (jthrowable_circular_buf_new 2)) 1 = true ∧
      jthrowable_circular_buf_find
        (([0, 1, 2] : List Nat).foldl jthrowable_circular_buf_push
          (jthrowable_circular_buf_new 2)) 2 = true) := by
  refine ⟨rfl, rfl, ?_, by decide, by decide, by decide⟩
  obtain ⟨-, hent⟩ := foldl_push xs (jthrowable_circular_buf_new K) (Nat.zero_le K)
  rw [jthrowable_circular_buf_find, hent]
  exact (List.elem_iff).trans (by simp [jthrowable_circular_buf_new])

/-- The fault identities of a list of reports, in emission order. -/
def reportedIds (rs : List Report) : List Nat :=
  rs.map (fun r => r.reported_object)

/-- A single-thread trace is well formed when the thread-end event occurs
only as its last element (the host delivers no events after thread end). -/
def threadEndOnlyLast : List JvmtiEvent → Bool
  | [] => true
  | JvmtiEvent.onThreadEnd :: rest => rest.isEmpty
  | _ :: rest => threadEndOnlyLast rest

/-- Invariant tying the thread's dedup buffer to the identities emitted so
far: no buffer before the first emission, afterwards a capacity-5 buffer
whose entries are exactly the emitted identities, most recent first. -/
def BufInv (st : ThreadState) (ids : List Nat) : Prop :=
  match st.threads_exc_buf with
  | none => ids = []
  | some b => b.capacity = REPORTED_EXCEPTION_STACK_CAPACITY ∧ b.entries = ids.reverse

theorem reportedIds_append (a b : List Report) :
    reportedIds (a ++ b) = reportedIds a ++ reportedIds b :=
  List.map_append _ a b

theorem BufInv_congr {st st' : ThreadState} {ids : List Nat}
    (h : st'.threads_exc_buf = st.threads_exc_buf) (hinv : BufInv st ids) :
    BufInv st' ids := by
  unfold BufInv at *
  rw [h]
  exact hinv

theorem guard_not_mem {st : ThreadState} {ids : List Nat} {x : Nat}
    (hinv : BufInv st ids)
    (hg : not_already_reported st.threads_exc_buf x = true) :
    x ∉ ids := by
  unfold BufInv at hinv
  cases hbuf : st.threads_exc_buf with
  | none =>
    rw [hbuf] at hinv
    subst hinv
    simp
  | some b =>
    rw [hbuf] at hinv hg
    obtain ⟨-, hent⟩ := hinv
    have hfind : b.entries.contains x = false := by
      simpa [not_already_reported, jthrowable_circular_buf_find] using hg
    intro hmem
    have hc : b.entries.contains x = true :=
      List.elem_iff.mpr (by rw [hent]; exact List.mem_reverse.mpr hmem)
    rw [hc] at hfind
    cases hfind

theorem BufInv_push {st st' : ThreadState} {ids : List Nat} {x : Nat}
    (hinv : BufInv st ids)
    (hbuf : st'.threads_exc_buf = some (jthrowable_circular_buf_push
      (st.threads_exc_buf.getD create_exception_buf_for_thread) x))
    (hlen : ids.length + 1 ≤ REPORTED_EXCEPTION_STACK_CAPACITY) :
    BufInv st' (ids ++ [x]) := by
  unfold BufInv at *
  rw [hbuf]
  cases hsb : st.threads_exc_buf with
  | none =>
    rw [hsb] at hinv
    subst hinv
    exact ⟨rfl, by simp [jthrowable_circular_buf_push, create_exception_buf_for_thread,
      jthrowable_circular_buf_new, REPORTED_EXCEPTION_STACK_CAPACITY]⟩
  | some b =>
    rw [hsb] at hinv
    obtain ⟨hcap, hent⟩ := hinv
    refine ⟨by simpa [jthrowable_circular_buf_push] using hcap, ?_⟩
    simp only [jthrowable_circular_buf_push, Option.getD_some]
    rw [hent, hcap]
    rw [List.take_of_length_le (by simp; omega)]
    simp

theorem on_exception_shape (env : Env) (ev : ThrowEvent) (st : ThreadState) :
    ((callback_on_exception env ev st).state.threads_exc_buf = st.threads_exc_buf ∧
      (callback_on_exception env ev st).emits = []) ∨
    (not_already_reported st.threads_exc_buf ev.exception_object = true ∧
      (callback_on_exception env ev st).state.threads_exc_buf =
        some (jthrowable_circular_buf_push
          (st.threads_exc_buf.getD create_exception_buf_for_thread)
          ev.exception_object) ∧
      reportedIds (callback_on_exception env ev st).emits = [ev.exception_object]) := by
  by_cases h1 : ev.catchKnown ∧ env.globalConfig.reportedCaughExceptionTypes = none
  · exact Or.inl (by constructor <;> simp [callback_on_exception, h1])
  · by_cases h2 : ev.catchKnown = false ∨
      exception_is_intended_to_be_reported env.globalConfig ev.exception_type_name = true
    · by_cases h3 : not_already_reported st.threads_exc_buf ev.exception_object = true
      · by_cases h4 : ev.catchKnown = false
        · exact Or.inl (by constructor <;> simp [callback_on_exception, h1, h2, h3, h4])
        · have hck : ev.catchKnown = true := by
            cases hcb : ev.catchKnown
            · exact absurd hcb h4
            · rfl
          have hnone : ¬(env.globalConfig.reportedCaughExceptionTypes = none) :=
            fun hn => h1 ⟨hck, hn⟩
          have hint : exception_is_intended_to_be_reported env.globalConfig
              ev.exception_type_name = true := by
            rcases h2 with h | h
            · exact absurd h h4
            · exact h
          refine Or.inr ⟨h3, ?_, ?_⟩
          · simp [callback_on_exception, hck, hnone, hint, h3]
          · simp [callback_on_exception, hck, hnone, hint, h3, reportedIds,
              mkCaughtThrowReport]
      · exact Or.inl (by constructor <;> simp [callback_on_exception, h1, h2, h3])
    · exact Or.inl (by constructor <;> simp [callback_on_exception, h1, h2])

theorem on_catch_shape (env : Env) (ev : CatchEvent) (st : ThreadState) :
    ((callback_on_exception_catch env ev st).state.threads_exc_buf = st.threads_exc_buf ∧
      (callback_on_exception_catch env ev st).emits = []) ∨
    (∃ x, not_already_reported st.threads_exc_buf x = true ∧
      (callback_on_exception_catch env ev st).state.threads_exc_buf =
        some (jthrowable_circular_buf_push
          (st.threads_exc_buf.getD create_exception_buf_for_thread) x) ∧
      reportedIds (callback_on_exception_catch env ev st).emits = [x]) := by
  cases hp : st.pending with
  | none => exact Or.inl (by constructor <;> simp [callback_on_exception_catch, hp])
  | some rpt =>
    by_cases hid : ev.exception_object = rpt.exception_object
    · by_cases hallow : exception_is_intended_to_be_reported env.globalConfig
        rpt.exception_type_name = true
      · by_cases hded : not_already_reported st.threads_exc_buf rpt.exception_object = true
        · refine Or.inr ⟨rpt.exception_object, hded, ?_, ?_⟩
          · simp [callback_on_exception_catch, hp, hid, hallow, hded]
          · simp [callback_on_exception_catch, hp, hid, hallow, hded, reportedIds,
              mkCaughtReport]
        · exact Or.inl
            (by constructor <;> simp [callback_on_exception_catch, hp, hid, hallow, hded])
      · exact Or.inl
          (by constructor <;> simp [callback_on_exception_catch, hp, hid, hallow])
    · exact Or.inl (by constructor <;> simp [callback_on_exception_catch, hp, hid])

theorem on_thread_end_shape (env : Env) (st : ThreadState) :
    (callback_on_thread_end env st).state.threads_exc_buf = none ∧
    ((callback_on_thread_end env st).emits = [] ∨
      ∃ x, not_already_reported st.threads_exc_buf x = true ∧
        reportedIds (callback_on_thread_end env st).emits = [x]) := by
  cases hp : st.pending with
  | none =>
    exact ⟨by simp [callback_on_thread_end, hp],
      Or.inl (by simp [callback_on_thread_end, hp])⟩
  | some rpt =>
    refine ⟨by simp [callback_on_thread_end, hp], ?_⟩
    by_cases hded : not_already_reported st.threads_exc_buf rpt.exception_object = true
    · exact Or.inr ⟨rpt.exception_object, hded,
        by simp [callback_on_thread_end, hp, hded, reportedIds, mkUncaughtReport]⟩
    · exact Or.inl (by simp [callback_on_thread_end, hp, hded])

theorem emits_guard (env : Env) (e : JvmtiEvent) (st : ThreadState)
    (b : T_jthrowableCircularBuf) (hb : st.threads_exc_buf = some b)
    (r : Report) (hr : r ∈ (dispatch env e st).emits) :
    jthrowable_circular_buf_find b r.reported_object = false := by
  have key : ∀ x, not_already_reported st.threads_exc_buf x = true →
      jthrowable_circular_buf_find b x = false := by
    intro x hx
    rw [hb] at hx
    simpa [not_already_reported] using hx
  cases e with
  | onThrow ev =>
    simp only [dispatch] at hr
    rcases on_exception_shape env ev st with ⟨-, he⟩ | ⟨hg, -, hids⟩
    · rw [he] at hr
      cases hr
    · have hmem : r.reported_object ∈ reportedIds (callback_on_exception env ev st).emits :=
        List.mem_map_of_mem _ hr
      rw [hids] at hmem
      have hx : r.reported_object = ev.exception_object := by simpa using hmem
      rw [hx]
      exact key _ hg
  | onCatch cev =>
    simp only [dispatch] at hr
    rcases on_catch_shape env cev st with ⟨-, he⟩ | ⟨x, hg, -, hids⟩
    · rw [he] at hr
      cases hr
    · have hmem : r.reported_object ∈
          reportedIds (callback_on_exception_catch env cev st).emits :=
        List.mem_map_of_mem _ hr
      rw [hids] at hmem
      have hx : r.reported_object = x := by simpa using hmem
      rw [hx]
      exact key _ hg
  | onThreadEnd =>
    simp only [dispatch] at hr
    rcases (on_thread_end_shape env st).2 with he | ⟨x, hg, hids⟩
    · rw [he] at hr
      cases hr
    · have hmem : r.reported_object ∈ reportedIds (callback_on_thread_end env st).emits :=
        List.mem_map_of_mem _ hr
      rw [hids] at hmem
      have hx : r.reported_object = x := by simpa using hmem
      rw [hx]
      exact key _ hg

theorem runEvents_cons (env : Env) (st : ThreadState) (e : JvmtiEvent)
    (rest : List JvmtiEvent) :
    runEvents env st (e :: rest) =
      ((runEvents env (dispatch env e st).state rest).1,
        (dispatch env e st).emits ++ (runEvents env (dispatch env e st).state rest).2) :=
  rfl

theorem nodup_append_singleton {ids : List Nat} {x : Nat}
    (hnd : ids.Nodup) (hx : x ∉ ids) : (ids ++ [x]).Nodup := by
  rw [List.nodup_append]
  exact ⟨hnd, List.nodup_singleton x, by simpa [List.disjoint_singleton] using hx⟩

/-- Inductive core for C7: starting from a state whose dedup buffer holds
exactly the already-emitted identities, a well-formed trace whose total
emission count stays within the ring capacity never repeats an identity. -/
theorem run_ids_nodup (tr : List JvmtiEvent) : ∀ (env : Env) (st : ThreadState)
    (ids : List Nat),
    BufInv st ids → ids.Nodup → threadEndOnlyLast tr = true →
    ids.length + (runEvents env st tr).2.length ≤ REPORTED_EXCEPTION_STACK_CAPACITY →
    (ids ++ reportedIds (runEvents env st tr).2).Nodup := by
  induction tr with
  | nil =>
    intro env st ids hinv hnd hwf hlen
    simpa [runEvents, reportedIds] using hnd
  | cons e rest ih =>
    intro env st ids hinv hnd hwf hlen
    rw [runEvents_cons] at hlen ⊢
    cases e with
    | onThrow ev =>
      have hwf' : threadEndOnlyLast rest = true := hwf
      simp only [dispatch] at hlen ⊢
      rcases on_exception_shape env ev st with ⟨hbuf, he⟩ | ⟨hg, hbuf, hids⟩
      · rw [he] at hlen ⊢
        simp only [List.nil_append] at hlen ⊢
        exact ih env _ ids (BufInv_congr hbuf hinv) hnd hwf' hlen
      · have hlen1 : (callback_on_exception env ev st).emits.length = 1 := by
          have := congrArg List.length hids
          simpa [reportedIds] using this
        rw [List.length_append, hlen1] at hlen
        have hxnot : ev.exception_object ∉ ids := guard_not_mem hinv hg
        have hnd' := nodup_append_singleton hnd hxnot
        have hinv' := BufInv_push hinv hbuf (by omega)
        have htail := ih env _ (ids ++ [ev.exception_object]) hinv' hnd' hwf'
          (by simp only [List.length_append, List.length_cons, List.length_nil]; omega)
        rw [reportedIds_append, hids]
        rw [List.append_assoc] at htail
        exact htail
    | onCatch cev =>
      have hwf' : threadEndOnlyLast rest = true := hwf
      simp only [dispatch] at hlen ⊢
      rcases on_catch_shape env cev st with ⟨hbuf, he⟩ | ⟨x, hg, hbuf, hids⟩
      · rw [he] at hlen ⊢
        simp only [List.nil_append] at hlen ⊢
        exact ih env _ ids (BufInv_congr hbuf hinv) hnd hwf' hlen
      · have hlen1 : (callback_on_exception_catch env cev st).emits.length = 1 := by
          have := congrArg List.length hids
          simpa [reportedIds] using this
        rw [List.length_append, hlen1] at hlen
        have hxnot : x ∉ ids := guard_not_mem hinv hg
        have hnd' := nodup_append_singleton hnd hxnot
        have hinv' := BufInv_push hinv hbuf (by omega)
        have htail := ih env _ (ids ++ [x]) hinv' hnd' hwf'
          (by simp only [List.length_append, List.length_cons, List.length_nil]; omega)
        rw [reportedIds_append, hids]
        rw [List.append_assoc] at htail
        exact htail
    | onThreadEnd =>
      have hrest : rest = [] := by
        simpa [threadEndOnlyLast, List.isEmpty_iff] using hwf
      subst hrest
      simp only [dispatch, runEvents, List.append_nil] at hlen ⊢
      rcases (on_thread_end_shape env st).2 with he | ⟨x, hg, hids⟩
      · rw [he]
        simpa [reportedIds] using hnd
      · rw [hids]
        exact nodup_append_singleton hnd (guard_not_mem hinv hg)

/-- C7: over any well-formed single-thread trace whose total number of
emitted reports stays within the dedup window (so no identity is evicted),
every fault identity is reported at most once; moreover every emission path
of every handler checks the thread's dedup buffer first and never emits an
identity found there. -/
theorem C7_dedup_at_most_once (env : Env) (tr : List JvmtiEvent)
    (hwf : threadEndOnlyLast tr = true)
    (hlen : (runEvents env initialThreadState tr).2.length ≤
      REPORTED_EXCEPTION_STACK_CAPACITY) :
    (reportedIds (runEvents env initialThreadState tr).2).Nodup ∧
    (∀ (e : JvmtiEvent) (st : ThreadState) (b : T_jthrowableCircularBuf),
      st.threads_exc_buf = some b →
      ∀ r ∈ (dispatch env e st).emits,
        jthrowable_circular_buf_find b r.reported_object = false) := by
  constructor
  · have h := run_ids_nodup tr env initialThreadState []
      (by simp [BufInv, initialThreadState]) List.nodup_nil hwf (by simpa using hlen)
    simpa using h
  · intro e st b hb r hr
    exact emits_guard env e st b hb r hr

/-- A caught throw of an allow-listed type, for exercising the dedup window. -/
def sampleThrowCaughtListed : ThrowEvent :=
  { sampleThrow with catchKnown := true, exception_object := 3 }

/-- A trace that reports the same identity twice in a row. -/
def trW : List JvmtiEvent :=
  [JvmtiEvent.onThrow sampleThrowCaughtListed, JvmtiEvent.onThrow sampleThrowCaughtListed]

/-- Witness for C7: the double sighting of identity 3 yields one report. -/
theorem C7_witness :
    threadEndOnlyLast trW = true ∧
    (runEvents envWithList initialThreadState trW).2.length ≤
      REPORTED_EXCEPTION_STACK_CAPACITY ∧
    (reportedIds (runEvents envWithList initialThreadState trW).2).Nodup :=
  ⟨by decide, by decide,
    (C7_dedup_at_most_once envWithList trW (by decide) (by decide)).1⟩

end AbrtJavaConnector
